import Mathlib

/-!
Verification of the opsbrew command-line tool's core logic: the git status
classifier (`ParseStatus`), the kubectl target resolution layer (`kctxCmd`),
and the recipe store and runner (`brewSaveCmd`, `brewRunCmd`, `brewDeleteCmd`,
`brewEditCmd`).  Go strings are modelled as lists of characters, Go maps as
functions into `Option`, and the effects of the imperative command handlers
(process spawns, prints, configuration writes) as explicit event traces.
-/

/-- Whitespace test mirroring Go `unicode.IsSpace`, used by `strings.TrimSpace`
and `strings.Fields`: the ASCII space characters plus the Unicode
white-space code points. -/
def goIsSpace (c : Char) : Bool :=
  c = ' ' || c = '\t' || c = '\n' || c = '\x0B' || c = '\x0C' || c = '\r' ||
  c = '\u0085' || c = ' ' || c = ' ' ||
  (' ' ≤ c && c ≤ ' ') ||
  c = ' ' || c = ' ' || c = ' ' || c = ' ' || c = '　'

/-- Go `strings.TrimSpace`: drop whitespace from both ends. -/
def goTrimSpace (s : List Char) : List Char :=
  ((s.dropWhile goIsSpace).reverse.dropWhile goIsSpace).reverse

/-- Go `strings.Split(s, sep)` for a one-character separator: the list of
(possibly empty) segments between occurrences of `sep`. -/
def splitOnChar (sep : Char) : List Char → List (List Char)
  | [] => [[]]
  | c :: cs =>
    if c = sep then [] :: splitOnChar sep cs
    else
      match splitOnChar sep cs with
      | [] => [[c]]
      | l :: ls => (c :: l) :: ls

/-- The six buckets of a `GitStatus` report. -/
inductive Bucket where
  | modified
  | staged
  | untracked
  | deleted
  | renamed
  | conflicted
deriving Repr, DecidableEq

/-- Go `git.FileStatus`: one changed path with its raw two-character code
(the unused `Type` field is omitted). -/
structure FileStatus where
  path : List Char
  status : List Char
deriving Repr, DecidableEq

/-- Go `git.GitStatus`: the six categorized buckets. -/
structure GitStatus where
  modified : List FileStatus
  staged : List FileStatus
  untracked : List FileStatus
  deleted : List FileStatus
  renamed : List FileStatus
  conflicted : List FileStatus
deriving Repr, DecidableEq

/-- The zero value `&GitStatus{}` that `ParseStatus` starts from. -/
def emptyGitStatus : GitStatus := ⟨[], [], [], [], [], []⟩

/-- The `switch` of `ParseStatus`, applied to the two characters of the code
`xy`.  The cases appear in source order (first match wins): `M`, `A`, `D`,
`R`, `??`, then `UU`/`AA`/`DD`; with a two-character `xy`,
`strings.HasPrefix xy p` for a one-character `p` is a test on the first
character, and for a two-character `p` it is equality. -/
def lineBucket (x y : Char) : Option Bucket :=
  if x = 'M' then some (if y = 'M' then .modified else .staged)
  else if x = 'A' then some .staged
  else if x = 'D' then some .deleted
  else if x = 'R' then some .renamed
  else if x = '?' && y = '?' then some .untracked
  else if (x = 'U' && y = 'U') || (x = 'A' && y = 'A') || (x = 'D' && y = 'D')
    then some .conflicted
  else none

/-- One iteration of the `ParseStatus` loop body on a line: the empty line and
any line with fewer than 3 characters are skipped; otherwise the code is
`line[:2]`, the path is `line[3:]`, and the `switch` picks a bucket (or none,
dropping the line). -/
def parseLine (line : List Char) : Option (Bucket × FileStatus) :=
  if line.length < 3 then none
  else
    match line with
    | x :: y :: _ :: rest =>
      match lineBucket x y with
      | some b => some (b, ⟨rest, [x, y]⟩)
      | none => none
    | _ => none

/-- `append` of a `FileStatus` onto the chosen bucket. -/
def addToBucket (s : GitStatus) (b : Bucket) (fs : FileStatus) : GitStatus :=
  match b with
  | .modified => { s with modified := s.modified ++ [fs] }
  | .staged => { s with staged := s.staged ++ [fs] }
  | .untracked => { s with untracked := s.untracked ++ [fs] }
  | .deleted => { s with deleted := s.deleted ++ [fs] }
  | .renamed => { s with renamed := s.renamed ++ [fs] }
  | .conflicted => { s with conflicted := s.conflicted ++ [fs] }

/-- One full iteration of the `ParseStatus` `for` loop. -/
def classifyStep (s : GitStatus) (line : List Char) : GitStatus :=
  match parseLine line with
  | some (b, fs) => addToBucket s b fs
  | none => s

/-- The `ParseStatus` loop over an explicit list of lines. -/
def statusOfLines (ls : List (List Char)) : GitStatus :=
  ls.foldl classifyStep emptyGitStatus

/-- `strings.Split(strings.TrimSpace(output), "\n")`. -/
def linesOf (output : List Char) : List (List Char) :=
  splitOnChar '\n' (goTrimSpace output)

/-- Go `git.ParseStatus`: trim, split into lines, classify each line. -/
def parseStatus (output : List Char) : GitStatus :=
  statusOfLines (linesOf output)

/-- Projection of the bucket named `b` out of a report. -/
def bucketGet (s : GitStatus) : Bucket → List FileStatus
  | .modified => s.modified
  | .staged => s.staged
  | .untracked => s.untracked
  | .deleted => s.deleted
  | .renamed => s.renamed
  | .conflicted => s.conflicted

/-- The contribution of a single line to the bucket named `b`. -/
def extractBucket (b : Bucket) (line : List Char) : Option FileStatus :=
  match parseLine line with
  | some (b', fs) => if b' = b then some fs else none
  | none => none

/-- Invocations of the external collaborators of the resolution layer. -/
inductive ResolveEvent where
  | listerCalled
  | pickerCalled
deriving Repr, DecidableEq

/-- The target-resolution logic of `kctxCmd` (lines 41-61; `knsCmd` is
identical with the namespace alias table).  With an explicit argument the
alias table is consulted and the lister and picker are never reached; without
one, the lister (`kubernetes.GetContexts`) runs and on its success the picker
(`kubernetes.SelectContext`) chooses among the candidates.  The two external
calls are oracles: `lister` is the outcome of the listing call and `picker`
the outcome of the interactive selection.  The first component records which
collaborators were invoked. -/
def resolveTarget (explicitArg : Option String) (aliases : String → Option String)
    (lister : Except String (List String))
    (picker : List String → Except String String) :
    List ResolveEvent × Except String String :=
  match explicitArg with
  | some arg =>
    ([], .ok (match aliases arg with
              | some canonical => canonical
              | none => arg))
  | none =>
    match lister with
    | .error e => ([.listerCalled], .error ("failed to get contexts: " ++ e))
    | .ok candidates =>
      match picker candidates with
      | .error e => ([.listerCalled, .pickerCalled],
          .error ("failed to select context: " ++ e))
      | .ok selected => ([.listerCalled, .pickerCalled], .ok selected)

/-- Go `config.Recipe`. -/
structure Recipe where
  description : String
  commands : List String
  tags : List String
deriving Repr, DecidableEq

/-- The `git` section of `config.Config`. -/
structure GitConfig where
  defaultBranch : String
  aliases : String → Option String
  autoFetch : Bool

/-- The `kubernetes` section of `config.Config`. -/
structure KubernetesConfig where
  defaultContext : String
  defaultNamespace : String
  contextAliases : String → Option String
  namespaceAliases : String → Option String

/-- The `brew` section of `config.Config`: the recipe store, a Go map
modelled as a function into `Option`. -/
structure BrewConfig where
  recipes : String → Option Recipe

/-- The `templates` section of `config.Config`. -/
structure TemplatesConfig where
  path : String

/-- The `ui` section of `config.Config`. -/
structure UIConfig where
  colors : Bool
  verbose : Bool
  confirm : Bool
  dryRun : Bool

/-- Go `config.Config`: the five persisted sections. -/
structure Config where
  git : GitConfig
  kubernetes : KubernetesConfig
  brew : BrewConfig
  templates : TemplatesConfig
  ui : UIConfig

/-- Map assignment `m[k] = v`. -/
def mapInsert (m : String → Option Recipe) (k : String) (v : Recipe) :
    String → Option Recipe :=
  fun x => if x = k then some v else m x

/-- Go `delete(m, k)`. -/
def mapErase (m : String → Option Recipe) (k : String) :
    String → Option Recipe :=
  fun x => if x = k then none else m x

/-- Accumulator-based `strings.Fields` core: split the remaining characters
on whitespace runs, `acc` holding the reversed current word. -/
def goFieldsAux : List Char → List Char → List (List Char)
  | acc, [] => if acc = [] then [] else [acc.reverse]
  | acc, c :: cs =>
    if goIsSpace c then
      if acc = [] then goFieldsAux [] cs
      else acc.reverse :: goFieldsAux [] cs
    else goFieldsAux (c :: acc) cs

/-- Go `strings.Fields`: the maximal whitespace-free runs, in order. -/
def goFields (s : List Char) : List (List Char) :=
  goFieldsAux [] s

/-- `strings.Fields` on a `String`, producing the argv the runner spawns. -/
def fieldsStr (s : String) : List String :=
  (goFields s.toList).map (fun w => String.mk w)

/-- ASCII case mapping of Go `strings.ToLower` (sufficient for the `y`/`yes`
comparisons, whose preimages are ASCII). -/
def lowerChar (c : Char) : Char :=
  if 'A' ≤ c && c ≤ 'Z' then Char.ofNat (c.toNat + 32) else c

/-- Go `strings.ToLower`. -/
def goToLower (s : String) : String :=
  String.mk (s.toList.map lowerChar)

/-- `strings.Split(s, ",")` followed by `strings.TrimSpace` on each piece, as
`brewEditCmd` applies to the tag line. -/
def splitTags (s : String) : List String :=
  (splitOnChar ',' s.toList).map (fun t => String.mk (goTrimSpace t))

/-- The configuration written by a successful `brewSaveCmd`: the recipe store
with the entry under `name` inserted or overwritten, every other section
untouched. -/
def savedConfig (cfg : Config) (name description : String)
    (tags commands : List String) : Config :=
  { cfg with brew :=
      ⟨mapInsert cfg.brew.recipes name ⟨description, commands, tags⟩⟩ }

/-- `brewSaveCmd` (lines 30-79): the interactively-read command list is a
parameter; an empty list is rejected (`no commands provided`) before the
configuration is touched; otherwise the entry under `name` is inserted or
overwritten and the new configuration written via `config.SaveConfig`.  The
first component lists the configurations written to disk. -/
def brewSave (cfg : Config) (name description : String)
    (tags commands : List String) : List Config × Except String Unit :=
  if commands = [] then ([], .error "no commands provided")
  else ([savedConfig cfg name description tags commands], .ok ())

/-- `brewDeleteCmd` (lines 188-234): missing recipe is an error; `dryRun`
returns before any change; without `skipConfirm` (the `--confirm` flag or
`cfg.UI.Confirm`), an answer other than `y`/`yes` (lowercased) cancels;
otherwise the entry is removed and the configuration written. -/
def brewDelete (cfg : Config) (name : String) (dryRun skipConfirm : Bool)
    (answer : String) : List Config × Except String Unit :=
  match cfg.brew.recipes name with
  | none => ([], .error "recipe not found")
  | some _ =>
    if dryRun then ([], .ok ())
    else if skipConfirm = false ∧ goToLower answer ≠ "y" ∧ goToLower answer ≠ "yes" then
      ([], .ok ())
    else
      ([{ cfg with brew := ⟨mapErase cfg.brew.recipes name⟩ }], .ok ())

/-- `brewEditCmd` (lines 236-320): the three interactively-read values are
parameters; the description and tags are replaced only when the new string is
non-empty (the tag string split on commas, each tag trimmed), the command
list only when non-empty; the updated recipe is stored under `name` and the
configuration written. -/
def brewEdit (cfg : Config) (name : String) (newDescription newTags : String)
    (newCommands : List String) : List Config × Except String Unit :=
  match cfg.brew.recipes name with
  | none => ([], .error "recipe not found")
  | some recipe =>
    let r1 := if newDescription ≠ "" then
        { recipe with description := newDescription } else recipe
    let r2 := if newTags ≠ "" then { r1 with tags := splitTags newTags } else r1
    let r3 := if newCommands ≠ [] then { r2 with commands := newCommands } else r2
    ([{ cfg with brew := ⟨mapInsert cfg.brew.recipes name r3⟩ }], .ok ())

/-- The part of the configuration `brewSaveCmd`, `brewDeleteCmd` and
`brewEditCmd` may change: at most the recipe entry under `name`.  All other
entries and all other sections of the written configuration `c` agree with
the loaded configuration `cfg`. -/
def configFrame (cfg c : Config) (name : String) : Prop :=
  (∀ n : String, n ≠ name → c.brew.recipes n = cfg.brew.recipes n) ∧
  c.git = cfg.git ∧ c.kubernetes = cfg.kubernetes ∧
  c.templates = cfg.templates ∧ c.ui = cfg.ui

/-- Observable events of `brewRunCmd`: the dry-run listing lines, the
confirmation prompt and cancellation message, the per-command `Executing
command i/n` line, a process spawn with its argv, and the `Command failed`
line. -/
inductive RunEvent where
  | dryPrint (idx : Nat) (cmd : String)
  | promptConfirm
  | cancelledMsg
  | announce (idx total : Nat) (cmd : String)
  | spawn (argv : List String)
  | failMsg (cmd : String)
deriving Repr, DecidableEq

/-- Terminal states of a recipe run. -/
inductive RunResult where
  | reported
  | cancelled
  | completed
  | failed (idx : Nat) (cmd : String)
deriving Repr, DecidableEq

/-- The command loop of `brewRunCmd` (lines 161-181), walking the commands
from 0-based position `i`: announce the command, tokenize it with
`strings.Fields`, skip it when the tokens are empty, otherwise spawn; a spawn
that does not exit 0 (per the oracle `exec`; a failure to start behaves the
same through `cmd.Run`) stops the loop with the failing 1-based position and
command text. -/
def runLoop (exec : List String → Bool) (total : Nat) :
    List String → Nat → List RunEvent × Option (Nat × String)
  | [], _ => ([], none)
  | command :: rest, i =>
    let parts := fieldsStr command
    if parts = [] then
      let r := runLoop exec total rest (i + 1)
      (RunEvent.announce (i + 1) total command :: r.1, r.2)
    else if exec parts then
      let r := runLoop exec total rest (i + 1)
      (RunEvent.announce (i + 1) total command :: RunEvent.spawn parts :: r.1, r.2)
    else
      ([RunEvent.announce (i + 1) total command, RunEvent.spawn parts,
        RunEvent.failMsg command], some (i + 1, command))

/-- `brewRunCmd` on a found recipe (lines 132-184): dry run prints the
commands with 1-based indices and stops; otherwise, unless `skipConfirm`
(the `--confirm` flag or `cfg.UI.Confirm`), a prompt is shown and any answer
whose lowercasing is neither `y` nor `yes` cancels without error; then the
command loop runs, `Completed` when every command succeeds, `Failed` at the
first failure. -/
def brewRun (recipe : Recipe) (dryRun skipConfirm : Bool) (answer : String)
    (exec : List String → Bool) : List RunEvent × RunResult :=
  if dryRun then
    (recipe.commands.enum.map (fun p => RunEvent.dryPrint (p.1 + 1) p.2),
     .reported)
  else if skipConfirm = false ∧ goToLower answer ≠ "y" ∧ goToLower answer ≠ "yes" then
    ([.promptConfirm, .cancelledMsg], .cancelled)
  else
    let pre := if skipConfirm then [] else [RunEvent.promptConfirm]
    let r := runLoop exec recipe.commands.length recipe.commands 0
    (pre ++ r.1,
     match r.2 with
     | none => .completed
     | some (i, c) => .failed i c)

/-- The events of one non-failing iteration of the command loop at 0-based
position `i`: the announcement, then the spawn unless the tokens are empty. -/
def stepEvents (total i : Nat) (command : String) : List RunEvent :=
  RunEvent.announce (i + 1) total command ::
    (if fieldsStr command = [] then [] else [RunEvent.spawn (fieldsStr command)])

/-- The events of a run of non-failing iterations starting at 0-based
position `i`. -/
def segEvents (total : Nat) : Nat → List String → List RunEvent
  | _, [] => []
  | i, c :: cs => stepEvents total i c ++ segEvents total (i + 1) cs

/-- The argv of a spawn event, `none` for every other event. -/
def spawnArgvOf : RunEvent → Option (List String)
  | .spawn argv => some argv
  | _ => none

/-- A concrete configuration with an empty recipe store. -/
def cfg0 : Config where
  git := ⟨"main", fun _ => none, true⟩
  kubernetes := ⟨"", "default", fun _ => none, fun _ => none⟩
  brew := ⟨fun _ => none⟩
  templates := ⟨""⟩
  ui := ⟨true, false, false, false⟩

/-- `cfg0` with one stored recipe named `x`. -/
def cfg1 : Config :=
  { cfg0 with brew :=
      ⟨fun n => if n = "x" then some ⟨"d", ["echo 1"], []⟩ else none⟩ }

theorem bucketGet_addToBucket (s : GitStatus) (b b' : Bucket) (fs : FileStatus) :
    bucketGet (addToBucket s b' fs) b =
      if b' = b then bucketGet s b ++ [fs] else bucketGet s b := by
  cases b' <;> cases b <;> simp [addToBucket, bucketGet]

theorem bucketGet_classifyStep (s : GitStatus) (line : List Char) (b : Bucket) :
    bucketGet (classifyStep s line) b =
      bucketGet s b ++ (extractBucket b line).toList := by
  unfold classifyStep extractBucket
  cases h : parseLine line with
  | none => simp
  | some p =>
    obtain ⟨b', fs⟩ := p
    by_cases hb : b' = b <;> simp [bucketGet_addToBucket, hb]

theorem bucketGet_foldl (ls : List (List Char)) (s : GitStatus) (b : Bucket) :
    bucketGet (ls.foldl classifyStep s) b =
      bucketGet s b ++ ls.filterMap (extractBucket b) := by
  induction ls generalizing s with
  | nil => simp
  | cons l ls ih =>
    rw [List.foldl_cons, ih, bucketGet_classifyStep, List.filterMap_cons]
    cases h : extractBucket b l <;> simp [h]

theorem bucketGet_statusOfLines (ls : List (List Char)) (b : Bucket) :
    bucketGet (statusOfLines ls) b = ls.filterMap (extractBucket b) := by
  have he : bucketGet emptyGitStatus b = [] := by cases b <;> rfl
  have h := bucketGet_foldl ls emptyGitStatus b
  rw [he] at h
  simpa [statusOfLines] using h

theorem parseLine_none_short (line : List Char) (h : line.length < 3) :
    parseLine line = none := by
  simp [parseLine, h]

theorem parseLine_take2 (line : List Char) (x y : Char)
    (h : line.take 2 = [x, y]) (hlen : 3 ≤ line.length) :
    parseLine line =
      match lineBucket x y with
      | some b => some (b, ⟨line.drop 3, [x, y]⟩)
      | none => none := by
  cases line with
  | nil => exact absurd hlen (by simp)
  | cons a t =>
    cases t with
    | nil => exact absurd hlen (by simp)
    | cons b2 t2 =>
      cases t2 with
      | nil => exact absurd hlen (by simp)
      | cons c rest =>
        simp [List.take] at h
        obtain ⟨hx, hy⟩ := h
        subst hx
        subst hy
        cases hb : lineBucket a b2 <;> simp [parseLine, hb]

/-- C1 at the failing inputs: the conflicted `switch` case of `ParseStatus`
explicitly lists the prefixes `UU`, `AA` and `DD`, but the single-character
`A` and `D` cases come first, leaving the `AA` and `DD` alternatives of that
case unreachable: the line `AA f` lands in the staged bucket and `DD g` in
the deleted bucket while the conflicted bucket stays empty, against the
stated priority and the code's own case listing. -/
theorem conflicted_priority_cex :
    (parseStatus ("AA f".toList)).conflicted = [] ∧
    (parseStatus ("AA f".toList)).staged = [⟨['f'], ['A', 'A']⟩] ∧
    (parseStatus ("DD g".toList)).conflicted = [] ∧
    (parseStatus ("DD g".toList)).deleted = [⟨['g'], ['D', 'D']⟩] := by
  decide

/-- The actual classification of the three conflict codes: only `UU` reaches
the conflicted case of the `switch`; a line whose code is `AA` is captured by
the earlier single-character `A` rule (staged) and a `DD` line by the `D`
rule (deleted).  In each case the line is placed in exactly the stated
bucket. -/
theorem conflicted_codes_classified :
    (∀ line : List Char, line.take 2 = ['U', 'U'] → 3 ≤ line.length →
      parseLine line = some (.conflicted, ⟨line.drop 3, ['U', 'U']⟩)) ∧
    (∀ line : List Char, line.take 2 = ['A', 'A'] → 3 ≤ line.length →
      parseLine line = some (.staged, ⟨line.drop 3, ['A', 'A']⟩)) ∧
    (∀ line : List Char, line.take 2 = ['D', 'D'] → 3 ≤ line.length →
      parseLine line = some (.deleted, ⟨line.drop 3, ['D', 'D']⟩)) := by
  refine ⟨?_, ?_, ?_⟩ <;>
    · intro line h hlen
      rw [parseLine_take2 line _ _ h hlen]
      rfl

/-- The preceding theorem applied to the concrete lines `UU a`, `AA b` and
`DD c`. -/
theorem conflicted_codes_classified_witness :
    parseLine ['U', 'U', ' ', 'a'] = some (.conflicted, ⟨['a'], ['U', 'U']⟩) ∧
    parseLine ['A', 'A', ' ', 'b'] = some (.staged, ⟨['b'], ['A', 'A']⟩) ∧
    parseLine ['D', 'D', ' ', 'c'] = some (.deleted, ⟨['c'], ['D', 'D']⟩) := by
  obtain ⟨h1, h2, h3⟩ := conflicted_codes_classified
  refine ⟨?_, ?_, ?_⟩
  · simpa using h1 ['U', 'U', ' ', 'a'] (by decide) (by decide)
  · simpa using h2 ['A', 'A', ' ', 'b'] (by decide) (by decide)
  · simpa using h3 ['D', 'D', ' ', 'c'] (by decide) (by decide)

/-- C5: the scenario text classifies to staged `a.txt`, modified `b.txt`,
untracked `c.txt`, conflicted `d.txt`, with the deleted and renamed buckets
empty. -/
theorem classify_scenario :
    parseStatus ("M  a.txt\nMM b.txt\n?? c.txt\nUU d.txt\n".toList) =
      { modified := [⟨"b.txt".toList, ['M', 'M']⟩],
        staged := [⟨"a.txt".toList, ['M', ' ']⟩],
        untracked := [⟨"c.txt".toList, ['?', '?']⟩],
        deleted := [],
        renamed := [],
        conflicted := [⟨"d.txt".toList, ['U', 'U']⟩] } := by
  decide

/-- C8: blank lines and lines shorter than 3 characters leave every bucket of
the report unaffected (inserting such a line anywhere in the line sequence
does not change the result), every bucket of the report is exactly the
per-line contributions in input order, and a single line contributes to at
most one bucket. -/
theorem classify_short_lines_ignored_one_bucket :
    (∀ out : List Char, parseStatus out = statusOfLines (linesOf out)) ∧
    (∀ (ls1 ls2 : List (List Char)) (line : List Char), line.length < 3 →
      statusOfLines (ls1 ++ line :: ls2) = statusOfLines (ls1 ++ ls2)) ∧
    (∀ (out : List Char) (b : Bucket),
      bucketGet (parseStatus out) b = (linesOf out).filterMap (extractBucket b)) ∧
    (∀ (line : List Char) (b1 b2 : Bucket) (fs1 fs2 : FileStatus),
      extractBucket b1 line = some fs1 → extractBucket b2 line = some fs2 →
      b1 = b2 ∧ fs1 = fs2) := by
  refine ⟨fun _ => rfl, ?_, ?_, ?_⟩
  · intro ls1 ls2 line h
    unfold statusOfLines
    rw [List.foldl_append, List.foldl_append, List.foldl_cons]
    have : classifyStep (ls1.foldl classifyStep emptyGitStatus) line =
        ls1.foldl classifyStep emptyGitStatus := by
      simp [classifyStep, parseLine_none_short _ h]
    rw [this]
  · intro out b
    exact bucketGet_statusOfLines (linesOf out) b
  · intro line b1 b2 fs1 fs2 h1 h2
    cases hp : parseLine line with
    | none =>
      unfold extractBucket at h1
      rw [hp] at h1
      exact Option.noConfusion h1
    | some p =>
      obtain ⟨b', fs⟩ := p
      have hx : ∀ b, extractBucket b line = if b' = b then some fs else none := by
        intro b
        unfold extractBucket
        rw [hp]
      rw [hx] at h1 h2
      by_cases e1 : b' = b1
      · by_cases e2 : b' = b2
        · rw [if_pos e1] at h1
          rw [if_pos e2] at h2
          cases h1
          cases h2
          exact ⟨e1 ▸ e2, rfl⟩
        · rw [if_neg e2] at h2
          exact Option.noConfusion h2
      · rw [if_neg e1] at h1
        exact Option.noConfusion h1

/-- C8 witness: a two-character line inserted after a `UU` line changes
nothing, and the `UU a` line contributes to one bucket only. -/
theorem classify_short_lines_witness :
    statusOfLines [['U', 'U', ' ', 'a'], ['x', 'y']] =
      statusOfLines [['U', 'U', ' ', 'a']] ∧
    (Bucket.conflicted = Bucket.conflicted ∧
      (⟨['a'], ['U', 'U']⟩ : FileStatus) = ⟨['a'], ['U', 'U']⟩) := by
  obtain ⟨-, h2, -, h4⟩ := classify_short_lines_ignored_one_bucket
  constructor
  · simpa using h2 [['U', 'U', ' ', 'a']] [] ['x', 'y'] (by decide)
  · exact h4 ['U', 'U', ' ', 'a'] .conflicted .conflicted _ _ (by decide) (by decide)

/-- C9: totality of the line handling — any line shorter than 3 characters is
skipped before the code `line[:2]` and the path `line[3:]` are sliced; when a
line is classified, its length is at least 3 and the two slices have exactly
lengths 2 and `length - 3` (so both are in range); a line of exactly 3
characters yields the empty path. -/
theorem parseStatus_total_slicing :
    (∀ line : List Char, line.length < 3 → parseLine line = none) ∧
    (∀ (line : List Char) (b : Bucket) (fs : FileStatus),
      parseLine line = some (b, fs) →
      3 ≤ line.length ∧ fs.status = line.take 2 ∧ fs.path = line.drop 3 ∧
      fs.status.length = 2 ∧ fs.path.length = line.length - 3) ∧
    (∀ (line : List Char) (b : Bucket) (fs : FileStatus), line.length = 3 →
      parseLine line = some (b, fs) → fs.path = []) := by
  have key : ∀ (line : List Char) (b : Bucket) (fs : FileStatus),
      parseLine line = some (b, fs) →
      3 ≤ line.length ∧ fs.status = line.take 2 ∧ fs.path = line.drop 3 ∧
      fs.status.length = 2 ∧ fs.path.length = line.length - 3 := by
    intro line b fs h
    cases line with
    | nil => simp [parseLine] at h
    | cons x t =>
      cases t with
      | nil => simp [parseLine] at h
      | cons y t2 =>
        cases t2 with
        | nil => simp [parseLine] at h
        | cons z rest =>
          have hlen : ¬ (x :: y :: z :: rest).length < 3 := by simp
          simp only [parseLine, hlen, if_false] at h
          cases hb : lineBucket x y with
          | none => rw [hb] at h; exact absurd h (by simp)
          | some b' =>
            rw [hb] at h
            simp only [Option.some.injEq, Prod.mk.injEq] at h
            obtain ⟨-, rfl⟩ := h
            refine ⟨by simp, rfl, rfl, rfl, by simp⟩
  refine ⟨parseLine_none_short, key, ?_⟩
  intro line b fs h3 h
  have hp := (key line b fs h).2.2.2.2
  rw [h3] at hp
  exact List.length_eq_zero.mp hp

/-- C9 witness: the theorem applied to the short line `x` and to the
three-character line `UU` followed by a space, whose path is empty. -/
theorem parseStatus_total_slicing_witness :
    parseLine ['x'] = none ∧
    (FileStatus.mk [] ['U', 'U']).path = [] := by
  obtain ⟨h1, -, h3⟩ := parseStatus_total_slicing
  exact ⟨h1 ['x'] (by decide),
    h3 ['U', 'U', ' '] .conflicted ⟨[], ['U', 'U']⟩ (by decide) (by decide)⟩

/-- C4: with a present explicit argument, resolution returns the aliased
canonical value when the argument is a key of the alias table and the literal
argument otherwise, invokes neither the lister nor the picker (the event list
is empty and the result does not depend on the two oracles), and on the
concrete table mapping `prod` to `production-cluster` resolves `prod` to
`production-cluster` and `other` to `other`. -/
theorem resolve_explicit_arg :
    ∀ (arg : String) (aliases : String → Option String)
      (lister : Except String (List String))
      (picker : List String → Except String String),
      resolveTarget (some arg) aliases lister picker =
        ([], .ok ((aliases arg).getD arg)) ∧
      resolveTarget (some "prod")
          (fun k => if k = "prod" then some "production-cluster" else none)
          lister picker = ([], .ok "production-cluster") ∧
      resolveTarget (some "other")
          (fun k => if k = "prod" then some "production-cluster" else none)
          lister picker = ([], .ok "other") := by
  intro arg aliases lister picker
  refine ⟨?_, rfl, rfl⟩
  cases h : aliases arg <;> simp [resolveTarget, h]

/-- C3: a dry run emits exactly the dry-run listing of every command in
stored order with 1-based indices, terminates in the `Reported` (successful)
state, and spawns no process. -/
theorem brewRun_dryRun (recipe : Recipe) (skipConfirm : Bool) (answer : String)
    (exec : List String → Bool) :
    brewRun recipe true skipConfirm answer exec =
      (recipe.commands.enum.map (fun p => RunEvent.dryPrint (p.1 + 1) p.2),
       .reported) ∧
    ∀ argv, RunEvent.spawn argv ∉ (brewRun recipe true skipConfirm answer exec).1 := by
  refine ⟨rfl, ?_⟩
  intro argv hmem
  simp [brewRun] at hmem

/-- C4 witness: the theorem at the concrete alias table and at an aliasless
table, with arbitrary failing or empty oracles. -/
theorem resolve_explicit_arg_witness :
    resolveTarget (some "prod")
        (fun k => if k = "prod" then some "production-cluster" else none)
        (.ok []) (fun _ => .error "") = ([], .ok "production-cluster") ∧
    resolveTarget (some "other")
        (fun k => if k = "prod" then some "production-cluster" else none)
        (.ok []) (fun _ => .error "") = ([], .ok "other") ∧
    resolveTarget (some "zzz") (fun _ => none) (.error "boom")
        (fun _ => .error "") = ([], .ok "zzz") := by
  have h := resolve_explicit_arg "prod"
    (fun k => if k = "prod" then some "production-cluster" else none)
    (.ok []) (fun _ => .error "")
  have h' := resolve_explicit_arg "zzz" (fun _ => none) (.error "boom")
    (fun _ => .error "")
  exact ⟨h.2.1, h.2.2, h'.1.trans rfl⟩

/-- C3 witness: the theorem at a concrete two-command recipe: the dry run
lists both commands with 1-based indices, reports success, and the argv of
the first command is never spawned. -/
theorem brewRun_dryRun_witness :
    brewRun ⟨"", ["echo hi", "false"], []⟩ true false "" (fun _ => true) =
      ([RunEvent.dryPrint 1 "echo hi", RunEvent.dryPrint 2 "false"],
       .reported) ∧
    RunEvent.spawn ["echo", "hi"] ∉
      (brewRun ⟨"", ["echo hi", "false"], []⟩ true false "" (fun _ => true)).1 := by
  have h := brewRun_dryRun ⟨"", ["echo hi", "false"], []⟩ false ""
    (fun _ => true)
  exact ⟨h.1.trans (by decide), h.2 ["echo", "hi"]⟩

/-- C6: with `dryRun = false` and `skipConfirm = false` the runner prompts;
an answer whose lowercasing is neither `y` nor `yes` ends the run in the
non-error `Cancelled` state with no spawn; an answer lowercasing to `y` or
`yes` proceeds to the executing phase, behaving exactly as the
confirmation-skipping run after the prompt. -/
theorem brewRun_confirmation :
    ∀ (recipe : Recipe) (answer : String) (exec : List String → Bool),
      (goToLower answer ≠ "y" → goToLower answer ≠ "yes" →
        brewRun recipe false false answer exec =
          ([RunEvent.promptConfirm, RunEvent.cancelledMsg], .cancelled) ∧
        ∀ argv, RunEvent.spawn argv ∉ (brewRun recipe false false answer exec).1) ∧
      ((goToLower answer = "y" ∨ goToLower answer = "yes") →
        brewRun recipe false false answer exec =
          (RunEvent.promptConfirm :: (brewRun recipe false true answer exec).1,
           (brewRun recipe false true answer exec).2)) := by
  intro recipe answer exec
  constructor
  · intro hy hyes
    have he : brewRun recipe false false answer exec =
        ([RunEvent.promptConfirm, RunEvent.cancelledMsg], .cancelled) := by
      simp [brewRun, hy, hyes]
    refine ⟨he, ?_⟩
    intro argv hmem
    rw [he] at hmem
    simp at hmem
  · intro hok
    have hneq : ¬ (goToLower answer ≠ "y" ∧ goToLower answer ≠ "yes") := by
      rcases hok with h | h <;> simp [h]
    simp [brewRun, hneq]

/-- C6 witness: the theorem at a one-command recipe, with the refusing
answer `no` and the accepting answer `YES`. -/
theorem brewRun_confirmation_witness :
    brewRun ⟨"", ["x"], []⟩ false false "no" (fun _ => true) =
      ([RunEvent.promptConfirm, RunEvent.cancelledMsg], .cancelled) ∧
    brewRun ⟨"", ["x"], []⟩ false false "YES" (fun _ => true) =
      (RunEvent.promptConfirm ::
        (brewRun ⟨"", ["x"], []⟩ false true "YES" (fun _ => true)).1,
       (brewRun ⟨"", ["x"], []⟩ false true "YES" (fun _ => true)).2) := by
  have h1 := (brewRun_confirmation ⟨"", ["x"], []⟩ "no" (fun _ => true)).1
    (by decide) (by decide)
  have h2 := (brewRun_confirmation ⟨"", ["x"], []⟩ "YES" (fun _ => true)).2
    (Or.inr (by decide))
  exact ⟨h1.1, h2⟩

theorem runLoop_ok (exec : List String → Bool) (total : Nat) :
    ∀ (pre l : List String) (i : Nat),
      (∀ c ∈ pre, fieldsStr c = [] ∨ exec (fieldsStr c) = true) →
      runLoop exec total (pre ++ l) i =
        (segEvents total i pre ++ (runLoop exec total l (i + pre.length)).1,
         (runLoop exec total l (i + pre.length)).2) := by
  intro pre
  induction pre with
  | nil =>
    intro l i h
    simp [segEvents]
  | cons c cs ih =>
    intro l i h
    have hcs : ∀ x ∈ cs, fieldsStr x = [] ∨ exec (fieldsStr x) = true :=
      fun x hx => h x (List.mem_cons_of_mem c hx)
    have hlen : i + (c :: cs).length = (i + 1) + cs.length := by
      simp [List.length_cons]
      omega
    rw [hlen]
    by_cases hp : fieldsStr c = []
    · have hstep : runLoop exec total ((c :: cs) ++ l) i =
          (RunEvent.announce (i + 1) total c ::
            (runLoop exec total (cs ++ l) (i + 1)).1,
           (runLoop exec total (cs ++ l) (i + 1)).2) := by
        simp [runLoop, hp]
      rw [hstep, ih l (i + 1) hcs]
      simp [segEvents, stepEvents, hp]
    · have hc : exec (fieldsStr c) = true := by
        rcases h c (List.mem_cons_self c cs) with h' | h'
        · exact absurd h' hp
        · exact h'
      have hstep : runLoop exec total ((c :: cs) ++ l) i =
          (RunEvent.announce (i + 1) total c ::
            RunEvent.spawn (fieldsStr c) ::
            (runLoop exec total (cs ++ l) (i + 1)).1,
           (runLoop exec total (cs ++ l) (i + 1)).2) := by
        simp [runLoop, hp, hc]
      rw [hstep, ih l (i + 1) hcs]
      simp [segEvents, stepEvents, hp]

theorem runLoop_fail (exec : List String → Bool) (total : Nat)
    (command : String) (post : List String) (i : Nat)
    (hne : fieldsStr command ≠ []) (hf : exec (fieldsStr command) = false) :
    runLoop exec total (command :: post) i =
      ([RunEvent.announce (i + 1) total command,
        RunEvent.spawn (fieldsStr command), RunEvent.failMsg command],
       some (i + 1, command)) := by
  simp [runLoop, hne, hf]

theorem segEvents_spawns (total : Nat) :
    ∀ (cs : List String) (i : Nat),
      (segEvents total i cs).filterMap spawnArgvOf =
        cs.filterMap (fun c => if fieldsStr c = [] then none
                               else some (fieldsStr c)) := by
  intro cs
  induction cs with
  | nil =>
    intro i
    simp [segEvents]
  | cons c cs ih =>
    intro i
    by_cases hp : fieldsStr c = [] <;>
      simp [segEvents, stepEvents, hp, spawnArgvOf, ih (i + 1),
        List.filterMap_cons]

/-- C2 counterexample: with the recipe `["", "x"]` and an executor failing
everything, the run fails at 1-based index `k = 2`, yet command 1 (the empty
string) was never executed: its tokenization is empty, so the loop skipped it
without ever spawning a process, refuting the claim that commands 1 through
`k - 1` have each been executed. -/
theorem brewRun_blank_command_cex :
    brewRun ⟨"", ["", "x"], []⟩ false true "" (fun _ => false) =
      ([RunEvent.announce 1 2 "", RunEvent.announce 2 2 "x",
        RunEvent.spawn ["x"], RunEvent.failMsg "x"],
       .failed 2 "x") ∧
    fieldsStr "" = [] ∧
    RunEvent.spawn (fieldsStr "") ∉
      (brewRun ⟨"", ["", "x"], []⟩ false true "" (fun _ => false)).1 := by
  decide

/-- C2 (amended): when the commands are `pre ++ command :: post` where each
command of `pre` either tokenizes to nothing or succeeds and `command`
tokenizes non-empty but fails (non-zero exit or spawn failure), the run with
`dryRun = false` past confirmation announces the commands of `pre` in stored
order spawning exactly the ones with non-empty tokens, spawns and reports the
failing command, terminates in the `Failed` state identifying the 1-based
index `pre.length + 1` and the command text, and never spawns any command of
`post`: the spawned argvs are exactly the tokenizations of the non-blank
commands of `pre`, in order, then the failing command's. -/
theorem brewRun_first_failure :
    ∀ (description answer : String) (tags pre post : List String)
      (command : String) (exec : List String → Bool),
      (∀ c ∈ pre, fieldsStr c = [] ∨ exec (fieldsStr c) = true) →
      fieldsStr command ≠ [] →
      exec (fieldsStr command) = false →
      brewRun ⟨description, pre ++ command :: post, tags⟩ false true answer exec =
        (segEvents (pre ++ command :: post).length 0 pre ++
          [RunEvent.announce (pre.length + 1) (pre ++ command :: post).length command,
           RunEvent.spawn (fieldsStr command), RunEvent.failMsg command],
         .failed (pre.length + 1) command) ∧
      (brewRun ⟨description, pre ++ command :: post, tags⟩
          false true answer exec).1.filterMap spawnArgvOf =
        pre.filterMap (fun c => if fieldsStr c = [] then none
                                else some (fieldsStr c)) ++
          [fieldsStr command] := by
  intro description answer tags pre post command exec hpre hne hf
  have hloop : runLoop exec (pre ++ command :: post).length
      (pre ++ command :: post) 0 =
      (segEvents (pre ++ command :: post).length 0 pre ++
        [RunEvent.announce (pre.length + 1) (pre ++ command :: post).length command,
         RunEvent.spawn (fieldsStr command), RunEvent.failMsg command],
       some (pre.length + 1, command)) := by
    rw [runLoop_ok exec (pre ++ command :: post).length pre (command :: post) 0 hpre]
    rw [runLoop_fail exec (pre ++ command :: post).length command post
      (0 + pre.length) hne hf]
    simp
  have hmain : brewRun ⟨description, pre ++ command :: post, tags⟩
      false true answer exec =
      (segEvents (pre ++ command :: post).length 0 pre ++
        [RunEvent.announce (pre.length + 1) (pre ++ command :: post).length command,
         RunEvent.spawn (fieldsStr command), RunEvent.failMsg command],
       .failed (pre.length + 1) command) := by
    have h0 : brewRun ⟨description, pre ++ command :: post, tags⟩
        false true answer exec =
        ([] ++ (runLoop exec (pre ++ command :: post).length
            (pre ++ command :: post) 0).1,
         match (runLoop exec (pre ++ command :: post).length
             (pre ++ command :: post) 0).2 with
         | none => RunResult.completed
         | some (i, c) => RunResult.failed i c) := rfl
    rw [h0, hloop]
    rfl
  refine ⟨hmain, ?_⟩
  rw [hmain]
  simp [List.filterMap_append, segEvents_spawns, spawnArgvOf]

/-- C2 witness: the spec scenario `["echo a", "false", "echo b"]` with an
executor failing exactly the argv `["false"]`: `echo a` is spawned, `false`
is spawned and fails, the run ends `Failed` at index 2 with text `false`,
and `echo b` is never spawned. -/
theorem brewRun_first_failure_witness :
    brewRun ⟨"", ["echo a", "false", "echo b"], []⟩ false true ""
        (fun argv => decide (argv ≠ ["false"])) =
      ([RunEvent.announce 1 3 "echo a", RunEvent.spawn ["echo", "a"],
        RunEvent.announce 2 3 "false", RunEvent.spawn ["false"],
        RunEvent.failMsg "false"],
       .failed 2 "false") := by
  have h := (brewRun_first_failure "" "" [] ["echo a"] ["echo b"] "false"
    (fun argv => decide (argv ≠ ["false"]))
    (by decide) (by decide) (by decide)).1
  exact h.trans (by decide)

/-- C7: saving with an empty command list fails with the validation error
`no commands provided` and writes nothing (and the check happens before the
store is touched, so the store is unchanged); with a non-empty command list
exactly the updated configuration is written, whose store holds the new
recipe under the given name, inserted or overwritten. -/
theorem brewSave_validation :
    ∀ (cfg : Config) (name description : String) (tags : List String),
      brewSave cfg name description tags [] =
        ([], .error "no commands provided") ∧
      ∀ commands : List String, commands ≠ [] →
        brewSave cfg name description tags commands =
          ([savedConfig cfg name description tags commands], .ok ()) ∧
        (savedConfig cfg name description tags commands).brew.recipes name =
          some ⟨description, commands, tags⟩ := by
  intro cfg name description tags
  refine ⟨rfl, ?_⟩
  intro commands h
  refine ⟨by simp [brewSave, h], ?_⟩
  simp [savedConfig, mapInsert]

/-- C7 witness: the theorem at the empty-store configuration, recipe name
`x`, with the empty and the one-command list `echo 1`. -/
theorem brewSave_validation_witness :
    brewSave cfg0 "x" "d" [] [] = ([], .error "no commands provided") ∧
    brewSave cfg0 "x" "d" [] ["echo 1"] =
      ([savedConfig cfg0 "x" "d" [] ["echo 1"]], .ok ()) ∧
    (savedConfig cfg0 "x" "d" [] ["echo 1"]).brew.recipes "x" =
      some ⟨"d", ["echo 1"], []⟩ := by
  have h := brewSave_validation cfg0 "x" "d" []
  exact ⟨h.1, h.2 ["echo 1"] (by simp)⟩

/-- C10: every configuration written by recipe save, delete or edit agrees
with the loaded configuration on every recipe entry other than the supplied
name and on the whole git, kubernetes, templates and ui sections. -/
theorem recipeStore_frame :
    (∀ (cfg : Config) (name description : String) (tags commands : List String)
        (c : Config), c ∈ (brewSave cfg name description tags commands).1 →
        configFrame cfg c name) ∧
    (∀ (cfg : Config) (name : String) (dryRun skipConfirm : Bool)
        (answer : String) (c : Config),
        c ∈ (brewDelete cfg name dryRun skipConfirm answer).1 →
        configFrame cfg c name) ∧
    (∀ (cfg : Config) (name newDescription newTags : String)
        (newCommands : List String) (c : Config),
        c ∈ (brewEdit cfg name newDescription newTags newCommands).1 →
        configFrame cfg c name) := by
  refine ⟨?_, ?_, ?_⟩
  · intro cfg name description tags commands c hmem
    by_cases hc : commands = []
    · simp [brewSave, hc] at hmem
    · simp [brewSave, hc] at hmem
      subst hmem
      refine ⟨?_, rfl, rfl, rfl, rfl⟩
      intro n hn
      simp [savedConfig, mapInsert, hn]
  · intro cfg name dryRun skipConfirm answer c hmem
    cases hr : cfg.brew.recipes name with
    | none => simp [brewDelete, hr] at hmem
    | some r =>
      simp only [brewDelete, hr] at hmem
      split at hmem
      · simp at hmem
      · split at hmem
        · simp at hmem
        · simp at hmem
          subst hmem
          refine ⟨?_, rfl, rfl, rfl, rfl⟩
          intro n hn
          simp [mapErase, hn]
  · intro cfg name newDescription newTags newCommands c hmem
    cases hr : cfg.brew.recipes name with
    | none => simp [brewEdit, hr] at hmem
    | some r =>
      simp only [brewEdit, hr] at hmem
      simp at hmem
      subst hmem
      refine ⟨?_, rfl, rfl, rfl, rfl⟩
      intro n hn
      simp [mapInsert, hn]

/-- C10 witness: the frame facts at concrete stores — saving `x` into the
empty store, and deleting or editing `x` in the one-recipe store — leave the
entry `y` and the untouched sections identical. -/
theorem recipeStore_frame_witness :
    (savedConfig cfg0 "x" "d" [] ["echo 1"]).brew.recipes "y" =
      cfg0.brew.recipes "y" ∧
    (savedConfig cfg0 "x" "d" [] ["echo 1"]).ui = cfg0.ui ∧
    ({ cfg1 with brew := ⟨mapErase cfg1.brew.recipes "x"⟩ } : Config).brew.recipes "y" =
      cfg1.brew.recipes "y" ∧
    ({ cfg1 with brew := ⟨mapErase cfg1.brew.recipes "x"⟩ } : Config).git = cfg1.git ∧
    ({ cfg1 with brew :=
        ⟨mapInsert cfg1.brew.recipes "x" ⟨"nd", ["echo 1"], []⟩⟩ } : Config).brew.recipes "y" =
      cfg1.brew.recipes "y" ∧
    ({ cfg1 with brew :=
        ⟨mapInsert cfg1.brew.recipes "x" ⟨"nd", ["echo 1"], []⟩⟩ } : Config).kubernetes =
      cfg1.kubernetes := by
  obtain ⟨hs, hd, he⟩ := recipeStore_frame
  have Hs := hs cfg0 "x" "d" [] ["echo 1"]
    (savedConfig cfg0 "x" "d" [] ["echo 1"]) (List.Mem.head _)
  have Hd := hd cfg1 "x" false true ""
    ({ cfg1 with brew := ⟨mapErase cfg1.brew.recipes "x"⟩ }) (List.Mem.head _)
  have He := he cfg1 "x" "nd" "" []
    ({ cfg1 with brew :=
        ⟨mapInsert cfg1.brew.recipes "x" ⟨"nd", ["echo 1"], []⟩⟩ }) (List.Mem.head _)
  exact ⟨Hs.1 "y" (by decide), Hs.2.2.2.2, Hd.1 "y" (by decide), Hd.2.1,
    He.1 "y" (by decide), He.2.2.1⟩
